import Mathlib

/-!
Shallow embedding of the test orchestration core of the crusader
repository (crusader-lib/src/test.rs), together with theorems settling
the specification claims about it.

Conventions:
* `Instant`-relative times (values of Rust `Duration` obtained from
  `setup_start.elapsed()`) are modelled as natural numbers counting
  nanoseconds.  Rust `Duration` is unsigned and `saturating_sub` is
  truncated subtraction, which is exactly `Nat` subtraction.
* The `time` field of a UDP `Ping` and the `time` field of a `Measure`
  message are `u64` microsecond counts; they are modelled as naturals,
  with the `u64` wrap (`wrapping_add`/`wrapping_sub`) made explicit as
  arithmetic modulo 2^64 at the sites where the code performs it.
* Fallible operations (`unwrap` on deserialization, `try_into`) are
  modelled with `Option`/`Except`; a `none`/`.error` result models a
  panic of the corresponding task.
-/

namespace Crusader

/-- 2^64, the modulus of Rust `u64` arithmetic. -/
def U64 : Nat := 18446744073709551616

/-- Rust `u64::wrapping_sub` on values reduced modulo 2^64. -/
def wrapping_sub_u64 (a b : Nat) : Nat :=
  (a % U64 + (U64 - b % U64)) % U64

/-- Rust `Duration::from_micros`, expressed in nanoseconds. -/
def from_micros (x : Nat) : Nat := x * 1000

/-- The `TestState` enum of test.rs (declaration order is the derived
`Ord` order: Setup, Grace1, LoadFromClient, Grace2, LoadFromServer,
Grace3, LoadFromBoth, Grace4, End, EndPingRecv). -/
inductive TestState where
  | Setup
  | Grace1
  | LoadFromClient
  | Grace2
  | LoadFromServer
  | Grace3
  | LoadFromBoth
  | Grace4
  | End
  | EndPingRecv
deriving DecidableEq, Repr

/-- The rank of a `TestState` in the derived `Ord` instance
(discriminant order of the Rust enum declaration). -/
def TestState.toNat : TestState → Nat
  | .Setup => 0
  | .Grace1 => 1
  | .LoadFromClient => 2
  | .Grace2 => 3
  | .LoadFromServer => 4
  | .Grace3 => 5
  | .LoadFromBoth => 6
  | .Grace4 => 7
  | .End => 8
  | .EndPingRecv => 9

/-- The position of a `TestState` in the order in which the orchestrator
of `test_async` actually emits states on the watch channel
(download load before upload load). -/
def TestState.emissionRank : TestState → Nat
  | .Setup => 0
  | .Grace1 => 1
  | .LoadFromServer => 2
  | .Grace2 => 3
  | .LoadFromClient => 4
  | .Grace3 => 5
  | .LoadFromBoth => 6
  | .Grace4 => 7
  | .End => 8
  | .EndPingRecv => 9

/-- The UDP `Ping` wire record (protocol.rs): client id, a `u64`
microsecond timestamp (rewritten by the server on echo), and a `u32`
sequence index. -/
structure Ping where
  id : Nat
  time : Nat
  index : Nat
deriving DecidableEq, Repr

/-- The `TestStream` identifier: group (0 = pure upload, 1 =
bidirectional upload) and ordinal within the group. -/
structure TestStream where
  group : Nat
  id : Nat
deriving DecidableEq, Repr

/-- `RawLatency` of file_format.rs: round-trip total and its up-path
component, both Durations (nanoseconds here). -/
structure RawLatency where
  total : Nat
  up : Nat
deriving DecidableEq, Repr

/-- `RawPing` of file_format.rs: sent index, send time, and the latency
decomposition when the ping returned. -/
structure RawPing where
  index : Nat
  sent : Nat
  latency : Option RawLatency
deriving DecidableEq, Repr

/-- `RawPoint` of file_format.rs: elapsed time and cumulative bytes. -/
structure RawPoint where
  time : Nat
  bytes : Nat
deriving DecidableEq, Repr

/-- `RawStream` of file_format.rs. -/
structure RawStream where
  data : List RawPoint
deriving DecidableEq, Repr

/-- `RawStreamGroup` of file_format.rs. -/
structure RawStreamGroup where
  download : Bool
  both : Bool
  streams : List RawStream
deriving DecidableEq, Repr

/-- The client `Config` of test.rs.  Durations are nanoseconds. -/
structure Config where
  download : Bool
  upload : Bool
  both : Bool
  port : Nat
  load_duration : Nat
  grace_duration : Nat
  streams : Nat
  stream_stagger : Nat
  ping_interval : Nat
  bandwidth_interval : Nat
deriving DecidableEq, Repr

/-- One insertion step of a stable insertion sort by a natural-number
key: the new element is placed after every element whose key is not
greater, so elements with equal keys keep their relative order. -/
def sort_by_key_insert {α : Type} (key : α → Nat) (x : α) : List α → List α
  | [] => [x]
  | y :: ys => if key x < key y then x :: y :: ys else y :: sort_by_key_insert key x ys

/-- Stable sort by a natural-number key, modelling Rust's (stable)
`slice::sort_by_key`: the output is sorted and elements with equal keys
appear in their original order, which determines it uniquely. -/
def sort_by_key {α : Type} (key : α → Nat) (l : List α) : List α :=
  l.foldl (fun acc x => sort_by_key_insert key x acc) []

/-- The loop of Rust `slice::binary_search_by` (libcore, the
implementation with an early return on `Equal`: `mid = left +
(right-left)/2`; on `Less` continue in `(mid+1, right)`, on `Greater`
in `(left, mid)`, on `Equal` return `Ok(mid)`).  The `fuel` argument
makes the recursion structural; every iteration shrinks `right - left`,
so any fuel of at least `right - left + 1` behaves as the Rust loop. -/
def binary_search_go (keys : List Nat) (target : Nat) :
    Nat → Nat → Nat → Option Nat
  | 0, _, _ => none
  | fuel + 1, left, right =>
    if left < right then
      let mid := left + (right - left) / 2
      let k := keys.getD mid 0
      if k < target then binary_search_go keys target fuel (mid + 1) right
      else if target < k then binary_search_go keys target fuel left mid
      else some mid
    else none

/-- Rust `slice::binary_search_by_key` over the list of keys of a sorted
slice: `Ok(i)` becomes `some i`, `Err` becomes `none`. -/
def binary_search_by_key (keys : List Nat) (target : Nat) : Option Nat :=
  binary_search_go keys target (keys.length + 1) 0 keys.length

/-- Default element used for (never-taken) out-of-range `getD` accesses
into a received-ping list. -/
def default_recv : Ping × Nat := (⟨0, 0, 0⟩, 0)

/-- The `RawLatency` built by `test_async` (test.rs lines 334-338) for a
sent time and a received record `r = (ping, recv_elapsed)`:
`total = recv_elapsed.saturating_sub(sent)` and
`up = Duration::from_micros(ping.time.wrapping_add(offset)).saturating_sub(sent)`. -/
def mk_raw_latency (offset sent : Nat) (r : Ping × Nat) : RawLatency :=
  { total := r.2 - sent
    up := from_micros ((r.1.time + offset) % U64) - sent }

/-- The ping join of `test_async` (test.rs lines 326-345): the received
list is stably sorted by ping index, and each sent ping (enumerated, so
its index is its position in the sent list) is matched by binary search
on that index; a hit produces the `RawLatency` of the found record. -/
def test_async_pings (pings_sent : List Nat) (recv : List (Ping × Nat))
    (server_time_offset : Nat) : List RawPing :=
  let recv' := sort_by_key (fun e => e.1.index) recv
  let keys := recv'.map (fun e => e.1.index)
  pings_sent.enum.map (fun p =>
    { index := p.1
      sent := p.2
      latency := (binary_search_by_key keys p.1).map
        (fun j => mk_raw_latency server_time_offset p.2 (recv'.getD j default_recv)) })

/-- The matched calibration samples of `measure_latency` (test.rs lines
450-459): received pings sorted by index, sent times enumerated and
matched by binary search; a match yields
`(sent, recv_elapsed - sent, ping.time)`. -/
def measure_latency_matched (sent : List Nat) (recv : List (Ping × Nat)) :
    List (Nat × Nat × Nat) :=
  let recv' := sort_by_key (fun e => e.1.index) recv
  let keys := recv'.map (fun e => e.1.index)
  sent.enum.filterMap (fun p =>
    (binary_search_by_key keys p.1).map
      (fun j => (p.2, (recv'.getD j default_recv).2 - p.2, (recv'.getD j default_recv).1.time)))

/-- `measure_latency` (test.rs lines 429-473): sort the matched samples
by round-trip, fail if there are none, otherwise take the sample at
position `len / 2`, and return its round-trip together with
`server_offset = (sent + latency/2).as_micros() as u64` minus (with
`u64` wrap) the server timestamp of that sample. -/
def measure_latency (sent : List Nat) (recv : List (Ping × Nat)) :
    Except String (Nat × Nat) :=
  let pings := sort_by_key (fun d => d.2.1) (measure_latency_matched sent recv)
  if pings.isEmpty then
    .error "Unable to measure latency to server"
  else
    let sel := pings.getD (pings.length / 2) (0, 0, 0)
    let latency := sel.2.1
    let server_pong := sel.1 + latency / 2
    let server_offset := wrapping_sub_u64 (server_pong / 1000) sel.2.2
    .ok (latency, server_offset)

/-- Little-endian read of `len` bytes of `buf` starting at `off`
(missing bytes read as 0; callers guard the length). -/
def read_le (buf : List Nat) (off len : Nat) : Nat :=
  (List.range len).foldr (fun i acc => acc * 256 + buf.getD (off + i) 0) 0

/-- bincode deserialization of a `Ping` (fixed-width little-endian
`u64 id`, `u64 time`, `u32 index`): succeeds when the datagram holds at
least the 20 encoded bytes, trailing bytes being ignored. -/
def deserialize_ping (buf : List Nat) : Option Ping :=
  if 20 ≤ buf.length then
    some { id := read_le buf 0 8, time := read_le buf 8 8, index := read_le buf 16 4 }
  else none

/-- The datagram-processing loop of `ping_recv` (test.rs lines 781-798):
each received datagram is deserialized with an `unwrap`, so a datagram
on which `deserialize_ping` fails aborts the whole task (modelled as
`.error ()`); a well-formed one is appended to storage with its arrival
time and the loop continues. -/
def ping_recv_process : List (List Nat × Nat) → List (Ping × Nat) →
    Except Unit (List (Ping × Nat))
  | [], storage => .ok storage
  | (buf, t) :: rest, storage =>
    match deserialize_ping buf with
    | some ping => ping_recv_process rest (storage ++ [(ping, t)])
    | none => .error ()

/-- The datagram-processing loop of `ping_measure_recv` (test.rs lines
516-533), whose per-packet body is identical to that of `ping_recv`:
deserialization is unwrapped, so a malformed datagram aborts the task. -/
def ping_measure_recv_process (datagrams : List (List Nat × Nat))
    (storage : List (Ping × Nat)) : Except Unit (List (Ping × Nat)) :=
  ping_recv_process datagrams storage

/-- The send loop of `ping_send` (test.rs lines 740-760): each tick
observes the current state and a current elapsed time; if the state is
at least `End` the loop breaks, otherwise a ping with
`index = storage.len()` is sent and the send time pushed.  The result
records `(index, send_time)` pairs. -/
def ping_send_run : List (TestState × Nat) → List (Nat × Nat) → List (Nat × Nat)
  | [], storage => storage
  | (p, t) :: rest, storage =>
    if TestState.End.toNat ≤ p.toNat then storage
    else ping_send_run rest (storage ++ [(storage.length, t)])

/-- The send condition of `ping_send` on one tick: the observed state
is strictly below `End` in the derived order (the code checks
`*state_rx.borrow() >= TestState::End` and breaks). -/
def below_end (pt : TestState × Nat) : Bool :=
  pt.1.toNat < TestState.End.toNat

/-- The full sequence of states the orchestrator of `test_async` emits,
in emission order, when every phase is enabled (initial watch value
`Setup` included). -/
def canonical_phase_emission : List TestState :=
  [.Setup, .Grace1, .LoadFromServer, .Grace2, .LoadFromClient, .Grace3,
   .LoadFromBoth, .Grace4, .End, .EndPingRecv]

/-- The sequence of states `test_async` sends on the watch channel
(test.rs lines 271-312): Grace1; then LoadFromServer and Grace2 when
download is enabled; then LoadFromClient and Grace3 when upload is
enabled; then LoadFromBoth and Grace4 when both is enabled; then End
and EndPingRecv. -/
def phase_sends (cfg : Config) : List TestState :=
  [TestState.Grace1]
  ++ (if cfg.download then [TestState.LoadFromServer, TestState.Grace2] else [])
  ++ (if cfg.upload then [TestState.LoadFromClient, TestState.Grace3] else [])
  ++ (if cfg.both then [TestState.LoadFromBoth, TestState.Grace4] else [])
  ++ [TestState.End, TestState.EndPingRecv]

/-- The sequence of values a receiver of the watch channel can observe:
the initial value `Setup` followed by the sent states. -/
def phase_observed (cfg : Config) : List TestState :=
  TestState.Setup :: phase_sends cfg

/-- Whether a state of the canonical emission sequence is emitted under
a configuration (the load state and trailing grace of each phase appear
exactly when that phase is enabled). -/
def phase_kept (cfg : Config) : TestState → Bool
  | .LoadFromServer => cfg.download
  | .Grace2 => cfg.download
  | .LoadFromClient => cfg.upload
  | .Grace3 => cfg.upload
  | .LoadFromBoth => cfg.both
  | .Grace4 => cfg.both
  | _ => true

/-- The `to_raw` closure of `test_async` (test.rs lines 349-359):
per-stream `(micros, cumulative bytes)` samples become `RawPoint`s. -/
def to_raw (d : List (Nat × Nat)) : RawStream :=
  { data := d.map (fun s => { time := from_micros s.1, bytes := s.2 }) }

/-- The `get_stream` closure (test.rs lines 374-380): the `Measure`
samples of one upload stream, in arrival order. -/
def get_stream (bandwidth : List (TestStream × Nat × Nat)) (group id : Nat) :
    List (Nat × Nat) :=
  (bandwidth.filter (fun e => e.1.group == group && e.1.id == id)).map
    (fun e => (e.2.1, e.2.2))

/-- The `get_raw_upload_bytes` closure (test.rs lines 382-386). -/
def get_raw_upload_bytes (bandwidth : List (TestStream × Nat × Nat))
    (loading_streams group : Nat) : List RawStream :=
  (List.range loading_streams).map (fun i => to_raw (get_stream bandwidth group i))

/-- The stream-group assembly of `test_async` (test.rs lines 188-208,
323-324 and 361-402).  `dl_data` and `both_dl_data` stand for the
per-stream download counters, which exist exactly when the download
(resp. both) phase was enabled.  The four pushes happen in source
order: download group if `config.download`, bidirectional-download
group if `config.both`, then the two upload groups — both of which the
source gates on `config.upload` (lines 388 and 396). -/
def test_async_stream_groups (cfg : Config)
    (dl_data both_dl_data : List (List (Nat × Nat)))
    (bandwidth : List (TestStream × Nat × Nat)) (loading_streams : Nat) :
    List RawStreamGroup :=
  (if cfg.download then
    [{ download := true, both := false, streams := dl_data.map to_raw }] else [])
  ++ (if cfg.both then
    [{ download := true, both := true, streams := both_dl_data.map to_raw }] else [])
  ++ (if cfg.upload then
    [{ download := false, both := false,
       streams := get_raw_upload_bytes bandwidth loading_streams 0 }] else [])
  ++ (if cfg.upload then
    [{ download := false, both := true,
       streams := get_raw_upload_bytes bandwidth loading_streams 1 }] else [])

/-- The server messages the bandwidth task of `test_async` can receive
on the control channel; `other` stands for any variant outside the
three expected ones. -/
inductive ServerMsg where
  | measure (stream : TestStream) (time : Nat) (bytes : Nat)
  | measureStreamDone (stream : TestStream)
  | measurementsDone
  | other
deriving DecidableEq, Repr

/-- Outcome of the bandwidth task's receive loop: normal completion
with the collected samples, a panic on an unexpected message, or still
blocked in `receive` because the input ended without
`MeasurementsDone`. -/
inductive BandwidthOutcome where
  | finished (measures : List (TestStream × Nat × Nat))
  | panicked
  | blocked
deriving DecidableEq, Repr

/-- The receive loop of the bandwidth task (test.rs lines 221-248): it
reads control messages one by one, with no deadline of any kind —
`MeasureStreamDone` releases a semaphore permit, `Measure` is recorded,
`MeasurementsDone` ends the loop returning everything recorded, and any
other message panics. -/
def bandwidth_loop : List ServerMsg → List (TestStream × Nat × Nat) →
    BandwidthOutcome
  | [], _ => .blocked
  | .measure s t b :: rest, acc => bandwidth_loop rest (acc ++ [(s, t, b)])
  | .measureStreamDone _ :: rest, acc => bandwidth_loop rest acc
  | .measurementsDone :: _, acc => .finished acc
  | .other :: _, _ => .panicked

/-- The `Measure` samples a message list delivers before its first
`MeasurementsDone`. -/
def measures_before_done : List ServerMsg → List (TestStream × Nat × Nat)
  | [] => []
  | .measure s t b :: rest => (s, t, b) :: measures_before_done rest
  | .measureStreamDone _ :: rest => measures_before_done rest
  | .measurementsDone :: _ => []
  | .other :: _ => []

/-- The number of enabled load phases (test.rs line 156:
`config.both as u32 + config.download as u32 + config.upload as u32`). -/
def config_loads (cfg : Config) : Nat :=
  (if cfg.both then 1 else 0) + (if cfg.download then 1 else 0)
    + (if cfg.upload then 1 else 0)

/-- `estimated_duration` of test.rs line 158:
`load_duration * loads + grace * 2` — computed only to size the ping
storage buffers, and carrying no `+ 5 s` term. -/
def estimated_duration (cfg : Config) : Nat :=
  cfg.load_duration * config_loads cfg + cfg.grace_duration * 2

/-- Modelled from the spec: the test-wide deadline the specification
asserts (`load_duration × enabled_phases + 2 × grace + 5 s`, here in
nanoseconds).  No corresponding quantity is enforced anywhere in
test.rs; this definition exists to compare the spec's words with the
code. -/
def spec_claimed_deadline (cfg : Config) : Nat :=
  cfg.load_duration * config_loads cfg + 2 * cfg.grace_duration + 5000000000

/-- The `u64 → u32` conversion of test.rs line 150
(`config.streams.try_into().unwrap()`): `some` of the value when it
fits in a `u32`, `none` (a panic) otherwise. -/
def test_async_loading_streams (streams : Nat) : Option Nat :=
  if streams < 4294967296 then some streams else none

/-- Observable steps of `test_async` relevant to claim ordering: the
latency calibration, the spawning of loader pools, the control-channel
requests, the ping tasks, and the phase sends. -/
inductive Event where
  | measureLatency
  | startUploadLoaders (group : Nat)
  | startDownloadLoaders (both : Bool)
  | sendGetMeasurements
  | startPingSend
  | startPingRecv
  | phase (s : TestState)
  | sendDoneMsg
deriving DecidableEq, Repr

/-- The control flow of `test_async` (test.rs lines 137-317) as an
event trace over given calibration data: `measure_latency` runs first
and its error (propagated by `?`) ends the function before any loader
is spawned; on success the loader pools are spawned in source order
(upload group 0 if upload, upload group 1 if both, download if
download, bidirectional download if both), `GetMeasurements` is sent,
the ping tasks start, the phases are emitted, and `Done` is sent. -/
def test_async_trace (cfg : Config) (calib_sent : List Nat)
    (calib_recv : List (Ping × Nat)) : List Event × Option String :=
  match measure_latency calib_sent calib_recv with
  | .error e => ([Event.measureLatency], some e)
  | .ok _ =>
    ([Event.measureLatency]
      ++ (if cfg.upload then [Event.startUploadLoaders 0] else [])
      ++ (if cfg.both then [Event.startUploadLoaders 1] else [])
      ++ (if cfg.download then [Event.startDownloadLoaders false] else [])
      ++ (if cfg.both then [Event.startDownloadLoaders true] else [])
      ++ [Event.sendGetMeasurements, Event.startPingSend, Event.startPingRecv]
      ++ (phase_sends cfg).map Event.phase
      ++ [Event.sendDoneMsg], none)

/-! Helper lemmas about the list operations used by the embedding. -/

theorem list_getD_mem {α : Type} (l : List α) (j : Nat) (d : α) (h : j < l.length) :
    l.getD j d ∈ l := by
  induction l generalizing j with
  | nil => simp at h
  | cons x xs ih =>
    cases j with
    | zero => simp [List.getD]
    | succ n =>
      simp only [List.getD_cons_succ]
      exact List.mem_cons_of_mem x (ih n (by simpa using h))

theorem list_getD_map {α β : Type} (f : α → β) (l : List α) (j : Nat) (d : α) :
    (l.map f).getD j (f d) = f (l.getD j d) := by
  induction l generalizing j with
  | nil => simp
  | cons x xs ih =>
    cases j with
    | zero => simp [List.getD]
    | succ n => simp only [List.map_cons, List.getD_cons_succ]; exact ih n

theorem sort_by_key_insert_perm {α : Type} (key : α → Nat) (x : α) (l : List α) :
    (sort_by_key_insert key x l).Perm (x :: l) := by
  induction l with
  | nil => simp [sort_by_key_insert]
  | cons y ys ih =>
    rw [sort_by_key_insert]
    split
    · exact List.Perm.refl _
    · exact ((ih.cons y).trans (List.Perm.swap x y ys))

theorem sort_by_key_perm_aux {α : Type} (key : α → Nat) (l : List α) :
    ∀ acc : List α, (l.foldl (fun a x => sort_by_key_insert key x a) acc).Perm (acc ++ l) := by
  induction l with
  | nil => intro acc; simp
  | cons x xs ih =>
    intro acc
    have h1 := ih (sort_by_key_insert key x acc)
    have h2 : (sort_by_key_insert key x acc ++ xs).Perm (acc ++ x :: xs) := by
      have h3 := (sort_by_key_insert_perm key x acc).append_right xs
      exact h3.trans List.perm_middle.symm
    exact h1.trans h2

theorem sort_by_key_perm {α : Type} (key : α → Nat) (l : List α) :
    (sort_by_key key l).Perm l :=
  (sort_by_key_perm_aux key l []).trans (by simp)

theorem sort_by_key_length {α : Type} (key : α → Nat) (l : List α) :
    (sort_by_key key l).length = l.length :=
  (sort_by_key_perm key l).length_eq

theorem sort_by_key_insert_map {α : Type} (key : α → Nat) (x : α) (l : List α) :
    (sort_by_key_insert key x l).map key = sort_by_key_insert id (key x) (l.map key) := by
  induction l with
  | nil => simp [sort_by_key_insert]
  | cons y ys ih =>
    by_cases h : key x < key y
    · simp only [sort_by_key_insert, List.map_cons, id_eq, if_pos h]
    · simp only [sort_by_key_insert, List.map_cons, id_eq, if_neg h, ih]

theorem sort_by_key_map_aux {α : Type} (key : α → Nat) (l : List α) :
    ∀ acc : List α,
      (l.foldl (fun a x => sort_by_key_insert key x a) acc).map key
        = (l.map key).foldl (fun a x => sort_by_key_insert id x a) (acc.map key) := by
  induction l with
  | nil => intro acc; rfl
  | cons x xs ih =>
    intro acc
    rw [List.foldl_cons, List.map_cons, List.foldl_cons, ih, sort_by_key_insert_map]

theorem sort_by_key_map {α : Type} (key : α → Nat) (l : List α) :
    (sort_by_key key l).map key = sort_by_key id (l.map key) := by
  rw [sort_by_key, sort_by_key, sort_by_key_map_aux]
  rfl

theorem binary_search_go_some (keys : List Nat) (target : Nat) :
    ∀ fuel left right j, binary_search_go keys target fuel left right = some j →
      left ≤ j ∧ j < right ∧ keys.getD j 0 = target := by
  intro fuel
  induction fuel with
  | zero => intro left right j h; simp [binary_search_go] at h
  | succ n ih =>
    intro left right j h
    rw [binary_search_go] at h
    split at h
    · rename_i hlr
      simp only at h
      split at h
      · obtain ⟨h1, h2, h3⟩ := ih _ _ _ h
        exact ⟨by omega, h2, h3⟩
      · split at h
        · obtain ⟨h1, h2, h3⟩ := ih _ _ _ h
          have hd : (right - left) / 2 ≤ right - left := Nat.div_le_self _ _
          exact ⟨h1, by omega, h3⟩
        · rename_i hk1 hk2
          have hj : left + (right - left) / 2 = j := by
            simpa using h
          have hd : (right - left) / 2 < right - left :=
            Nat.div_lt_self (by omega) (by omega)
          refine ⟨by omega, by omega, ?_⟩
          rw [← hj]
          omega
    · simp at h

theorem binary_search_by_key_some (keys : List Nat) (target : Nat) (j : Nat)
    (h : binary_search_by_key keys target = some j) :
    j < keys.length ∧ keys.getD j 0 = target := by
  obtain ⟨_, h2, h3⟩ := binary_search_go_some keys target _ _ _ _ h
  exact ⟨h2, h3⟩

theorem test_async_pings_latency_src (sent : List Nat) (recv : List (Ping × Nat))
    (offset : Nat) (p : RawPing) (hp : p ∈ test_async_pings sent recv offset)
    (l : RawLatency) (hl : p.latency = some l) :
    ∃ r ∈ recv, r.1.index = p.index ∧ l = mk_raw_latency offset p.sent r := by
  simp only [test_async_pings, List.mem_map] at hp
  obtain ⟨a, ha, rfl⟩ := hp
  simp only [Option.map_eq_some'] at hl
  obtain ⟨j, hj, rfl⟩ := hl
  obtain ⟨hjlen, hkey⟩ := binary_search_by_key_some _ _ _ hj
  rw [List.length_map] at hjlen
  refine ⟨(sort_by_key (fun e => e.1.index) recv).getD j default_recv, ?_, ?_, rfl⟩
  · exact (sort_by_key_perm (fun e => e.1.index) recv).subset
      (list_getD_mem _ j default_recv hjlen)
  · have hmap := list_getD_map (fun e : Ping × Nat => e.1.index)
      (sort_by_key (fun e => e.1.index) recv) j default_recv
    simp only [default_recv] at hmap
    rw [hmap] at hkey
    exact hkey

/-- C1: in the ping join of `test_async`, a returned ping's `up`
component comes from one received record `r` as
`up = from_micros((r.time + offset) mod 2^64).saturating_sub(sent)`;
it is a `Nat` (`Duration`), hence never negative, and it is bounded by
`total` whenever the offset-translated server timestamp does not exceed
the receive time — but the code performs no clamping of `up` to
`total`, so the bound only holds under that condition (see the
counterexample for an offset violating it). -/
theorem c1_up_within_total_when_translated_in_range :
    ∀ (sent : List Nat) (recv : List (Ping × Nat)) (offset : Nat) (p : RawPing),
      p ∈ test_async_pings sent recv offset → ∀ l, p.latency = some l →
      ∃ r ∈ recv, l = mk_raw_latency offset p.sent r ∧
        (from_micros ((r.1.time + offset) % U64) ≤ r.2 → l.up ≤ l.total) := by
  intro sent recv offset p hp l hl
  obtain ⟨r, hr, _, hlr⟩ := test_async_pings_latency_src sent recv offset p hp l hl
  refine ⟨r, hr, hlr, ?_⟩
  intro hle
  rw [hlr]
  simp only [mk_raw_latency]
  omega

/-- C1 witness: a concrete run where the hypotheses of the bound hold
and the bound is realized. -/
theorem c1_witness :
    ∃ r ∈ [((⟨1, 2, 0⟩ : Ping), 4000)],
      ({ total := 3995, up := 1995 } : RawLatency) = mk_raw_latency 0 5 r ∧
        (from_micros ((r.1.time + 0) % U64) ≤ r.2 → 1995 ≤ 3995) :=
  c1_up_within_total_when_translated_in_range [5] [(⟨1, 2, 0⟩, 4000)] 0
    { index := 0, sent := 5, latency := some { total := 3995, up := 1995 } }
    (by decide) { total := 3995, up := 1995 } rfl

/-- C1 counterexample: with `server_time_offset = 0` and a received
record whose echoed server timestamp (20 us) exceeds the receive time
(10000 ns), `test_async` produces a `RawPing` whose `up` (20000 ns)
exceeds its `total` (10000 ns), refuting `up ≤ total` as claimed for
every offset. -/
theorem c1_counterexample :
    ∃ p ∈ test_async_pings [0] [((⟨7, 20, 0⟩ : Ping), 10000)] 0,
      ∃ l, p.latency = some l ∧ l.total < l.up := by
  refine ⟨{ index := 0, sent := 0, latency := some { total := 10000, up := 20000 } },
    by decide, { total := 10000, up := 20000 }, rfl, by decide⟩

/-- C8: at most one received record contributes to each `RawPing` — a
returned latency is the `RawLatency` of a single received record whose
`index` equals the ping's index, the one at the position the slice
binary search returns in the stably index-sorted receive list.  Which
duplicate that is is decided by the midpoint probes, not by arrival
order: with three duplicates of an index (and no other records) the
second received record is used, not the last. -/
theorem c8_single_record_contributes :
    (∀ (sent : List Nat) (recv : List (Ping × Nat)) (offset : Nat) (p : RawPing),
        p ∈ test_async_pings sent recv offset → ∀ l, p.latency = some l →
        ∃ r ∈ recv, r.1.index = p.index ∧ l = mk_raw_latency offset p.sent r)
    ∧ test_async_pings [0]
        [((⟨77, 10, 0⟩ : Ping), 1000), (⟨77, 20, 0⟩, 2000), (⟨77, 30, 0⟩, 3000)] 0
      = [{ index := 0, sent := 0,
           latency := some (mk_raw_latency 0 0 ((⟨77, 20, 0⟩ : Ping), 2000)) }] :=
  ⟨test_async_pings_latency_src, by decide⟩

/-- C8 witness: the single-contribution property instantiated on a
concrete received ping. -/
theorem c8_witness :
    ∃ r ∈ [((⟨2, 3, 0⟩ : Ping), 5000)],
      r.1.index = 0 ∧ ({ total := 4991, up := 3991 } : RawLatency) = mk_raw_latency 1 9 r :=
  c8_single_record_contributes.1 [9] [(⟨2, 3, 0⟩, 5000)] 1
    { index := 0, sent := 9, latency := some { total := 4991, up := 3991 } }
    (by decide) { total := 4991, up := 3991 } rfl

/-- C8 counterexample: with three received duplicates of index 0
(arrival times 1000, 2000, 3000 ns), the produced `RawPing` carries the
latency of the second record (total 2000 ns), not that of the last one
received (which would be total 3000 ns), refuting that the later
duplicate always wins. -/
theorem c8_counterexample :
    (test_async_pings [0]
        [((⟨77, 10, 0⟩ : Ping), 1000), (⟨77, 20, 0⟩, 2000), (⟨77, 30, 0⟩, 3000)] 0).map
        (fun p => p.latency)
      = [some { total := 2000, up := 20000 }]
    ∧ mk_raw_latency 0 0 ((⟨77, 30, 0⟩ : Ping), 3000) = { total := 3000, up := 30000 }
    ∧ ({ total := 2000, up := 20000 } : RawLatency) ≠ { total := 3000, up := 30000 } := by
  refine ⟨by decide, by decide, by decide⟩

/-- C4: on success, the round-trip `measure_latency` returns is the
element at position `n / 2` of the sorted list of matched round-trips —
the upper median, not the minimum — and the returned offset is
`(sent + latency/2).as_micros() wrapping_sub server_time` computed from
that selected sample. -/
theorem c4_median_round_trip :
    ∀ (sent : List Nat) (recv : List (Ping × Nat)) (lat off : Nat),
      measure_latency sent recv = .ok (lat, off) →
      lat = (sort_by_key id ((measure_latency_matched sent recv).map (fun t => t.2.1))).getD
              ((measure_latency_matched sent recv).length / 2) 0
      ∧ ∃ t ∈ measure_latency_matched sent recv,
          t.2.1 = lat ∧ off = wrapping_sub_u64 ((t.1 + lat / 2) / 1000) t.2.2 := by
  intro sent recv lat off h
  simp only [measure_latency] at h
  split at h
  · exact absurd h (by simp)
  · rename_i hne
    simp only [Except.ok.injEq, Prod.mk.injEq] at h
    obtain ⟨h1, h2⟩ := h
    have hlen : (sort_by_key (fun d => d.2.1) (measure_latency_matched sent recv)).length
        = (measure_latency_matched sent recv).length :=
      sort_by_key_length _ _
    have hpos : 0 < (sort_by_key (fun d => d.2.1) (measure_latency_matched sent recv)).length := by
      rcases hsort : sort_by_key (fun d => d.2.1) (measure_latency_matched sent recv) with _ | ⟨a, as⟩
      · rw [hsort] at hne; simp at hne
      · rw [hsort]; simp
    have hidx : (sort_by_key (fun d => d.2.1) (measure_latency_matched sent recv)).length / 2
        < (sort_by_key (fun d => d.2.1) (measure_latency_matched sent recv)).length :=
      Nat.div_lt_self hpos (by omega)
    constructor
    · rw [← sort_by_key_map (fun t : Nat × Nat × Nat => t.2.1)]
      have hmap := list_getD_map (fun t : Nat × Nat × Nat => t.2.1)
        (sort_by_key (fun d => d.2.1) (measure_latency_matched sent recv))
        ((measure_latency_matched sent recv).length / 2) (0, 0, 0)
      rw [hmap, ← hlen, h1]
    · refine ⟨(sort_by_key (fun d => d.2.1) (measure_latency_matched sent recv)).getD
        ((sort_by_key (fun d => d.2.1) (measure_latency_matched sent recv)).length / 2)
        (0, 0, 0), ?_, ?_, ?_⟩
      · exact (sort_by_key_perm _ _).subset (list_getD_mem _ _ _ hidx)
      · exact h1
      · rw [← h2, ← h1]

/-- C4 witness: the median characterization instantiated on a
single-sample calibration run. -/
theorem c4_witness :
    (3000 : Nat) = (sort_by_key id ((measure_latency_matched [0]
        [((⟨1, 5, 0⟩ : Ping), 3000)]).map (fun t => t.2.1))).getD
          ((measure_latency_matched [0] [((⟨1, 5, 0⟩ : Ping), 3000)]).length / 2) 0
    ∧ ∃ t ∈ measure_latency_matched [0] [((⟨1, 5, 0⟩ : Ping), 3000)],
        t.2.1 = 3000 ∧ 18446744073709551612 = wrapping_sub_u64 ((t.1 + 3000 / 2) / 1000) t.2.2 :=
  c4_median_round_trip [0] [(⟨1, 5, 0⟩, 3000)] 3000 18446744073709551612 (by rfl)

/-- C4 counterexample: a calibration run with two matched samples of
round-trips 4000 ns and 10000 ns; `measure_latency` returns 10000, yet
a matched sample with the strictly smaller round-trip 4000 exists, so
the minimum is not selected. -/
theorem c4_counterexample :
    measure_latency [0, 1000] [((⟨1, 11, 0⟩ : Ping), 4000), (⟨1, 22, 1⟩, 11000)]
      = .ok (10000, 18446744073709551600)
    ∧ (0, 4000, 11) ∈ measure_latency_matched [0, 1000]
        [((⟨1, 11, 0⟩ : Ping), 4000), (⟨1, 22, 1⟩, 11000)]
    ∧ 4000 < 10000 := by
  refine ⟨by rfl, by decide, by decide⟩

theorem measure_latency_error_iff (sent : List Nat) (recv : List (Ping × Nat)) :
    (∃ e, measure_latency sent recv = .error e) ↔ measure_latency_matched sent recv = [] := by
  constructor
  · rintro ⟨e, h⟩
    simp only [measure_latency] at h
    split at h
    · rename_i hemp
      have hnil : sort_by_key (fun d => d.2.1) (measure_latency_matched sent recv) = [] := by
        simpa using hemp
      have hlen := sort_by_key_length (fun d : Nat × Nat × Nat => d.2.1)
        (measure_latency_matched sent recv)
      rw [hnil] at hlen
      exact List.eq_nil_of_length_eq_zero hlen.symm
    · simp at h
  · intro hm
    refine ⟨"Unable to measure latency to server", ?_⟩
    simp only [measure_latency, hm]
    rfl

/-- C7: `measure_latency` fails (with the message surfaced as the
LatencyUnmeasurable error) exactly when no calibration ping was both
sent and received, and in that case the error propagates out of
`test_async` before any loader pool is spawned: the trace contains no
loader-start event, so no bulk TCP traffic occurs. -/
theorem c7_latency_unmeasurable_before_load :
    ∀ (cfg : Config) (sent : List Nat) (recv : List (Ping × Nat)),
      ((∃ e, measure_latency sent recv = .error e) ↔ measure_latency_matched sent recv = [])
      ∧ (measure_latency_matched sent recv = [] →
          (test_async_trace cfg sent recv).2 = some "Unable to measure latency to server"
          ∧ ∀ ev ∈ (test_async_trace cfg sent recv).1,
              (∀ g, ev ≠ Event.startUploadLoaders g) ∧ ∀ b, ev ≠ Event.startDownloadLoaders b) := by
  intro cfg sent recv
  refine ⟨measure_latency_error_iff sent recv, ?_⟩
  intro hm
  have herr : measure_latency sent recv = .error "Unable to measure latency to server" := by
    simp only [measure_latency, hm]
    rfl
  constructor
  · simp only [test_async_trace, herr]
  · intro ev hev
    simp only [test_async_trace, herr, List.mem_singleton] at hev
    subst hev
    exact ⟨fun g => by simp, fun b => by simp⟩

/-- C7 witness: with no calibration data at all, the trace stops at the
latency measurement and contains no loader event. -/
theorem c7_witness :
    (test_async_trace
        { download := true, upload := true, both := true, port := 0, load_duration := 0,
          grace_duration := 0, streams := 1, stream_stagger := 0, ping_interval := 0,
          bandwidth_interval := 0 } [] []).2 = some "Unable to measure latency to server"
    ∧ ∀ ev ∈ (test_async_trace
        { download := true, upload := true, both := true, port := 0, load_duration := 0,
          grace_duration := 0, streams := 1, stream_stagger := 0, ping_interval := 0,
          bandwidth_interval := 0 } [] []).1,
        (∀ g, ev ≠ Event.startUploadLoaders g) ∧ ∀ b, ev ≠ Event.startDownloadLoaders b :=
  (c7_latency_unmeasurable_before_load
    { download := true, upload := true, both := true, port := 0, load_duration := 0,
      grace_duration := 0, streams := 1, stream_stagger := 0, ping_interval := 0,
      bandwidth_interval := 0 } [] []).2 rfl

/-- C3 counterexample: with download enabled, the orchestrator emits
`LoadFromServer` (rank 4 in the declared `Ord` of `TestState`) and then
`Grace2` (rank 3), so the sequence of phase values on the channel is
not monotone with respect to the declared total order
`Setup < Grace1 < LoadFromClient < Grace2 < LoadFromServer < ...`. -/
theorem c3_counterexample :
    ¬ List.Chain' (fun a b => a.toNat ≤ b.toNat)
        (phase_observed
          { download := true, upload := false, both := false, port := 0, load_duration := 0,
            grace_duration := 0, streams := 1, stream_stagger := 0, ping_interval := 0,
            bandwidth_interval := 0 }) := by
  intro h
  rw [show phase_observed
      { download := true, upload := false, both := false, port := 0, load_duration := 0,
        grace_duration := 0, streams := 1, stream_stagger := 0, ping_interval := 0,
        bandwidth_interval := 0 }
      = [.Setup, .Grace1, .LoadFromServer, .Grace2, .End, .EndPingRecv] from rfl] at h
  simp only [List.chain'_cons, List.chain'_singleton, TestState.toNat] at h
  omega

/-- C3 (amended): the sequence of phase values a receiver can observe
is exactly the canonical emission sequence (Setup, Grace1,
LoadFromServer, Grace2, LoadFromClient, Grace3, LoadFromBoth, Grace4,
End, EndPingRecv) filtered to the enabled phases; it is therefore
monotone with respect to the emission order — once advanced it never
regresses — and a sublist of the canonical emission sequence, for every
combination of enabled phases.  It is not monotone with respect to the
declared derived `Ord` of `TestState`, whose declaration order
(upload load before download load) disagrees with the emission order. -/
theorem c3_phase_sequence_filtered :
    ∀ cfg : Config,
      phase_observed cfg = canonical_phase_emission.filter (phase_kept cfg)
      ∧ List.Chain' (fun a b => a.emissionRank ≤ b.emissionRank) (phase_observed cfg)
      ∧ List.Sublist (phase_observed cfg) canonical_phase_emission := by
  intro cfg
  obtain ⟨d, u, b, port, ld, gd, st, ss, pi, bi⟩ := cfg
  have h : phase_observed ⟨d, u, b, port, ld, gd, st, ss, pi, bi⟩
      = canonical_phase_emission.filter
          (phase_kept ⟨d, u, b, port, ld, gd, st, ss, pi, bi⟩) := by
    cases d <;> cases u <;> cases b <;> rfl
  refine ⟨h, ?_, ?_⟩
  · rw [h]
    have hp : List.Pairwise (fun a b : TestState => a.emissionRank ≤ b.emissionRank)
        canonical_phase_emission := by decide
    exact (hp.filter _).chain'
  · rw [h]
    exact List.filter_sublist canonical_phase_emission

/-- C2: the stream-group assembly evaluated at the claim's failing
inputs.  With upload enabled and both disabled, the code emits two
groups — the upload group and a spurious bidirectional-upload group
(download = false, both = true), a group of a disabled phase.  With
both enabled and upload disabled, the code emits only the
bidirectional-download group and drops the bidirectional-upload data
that the group-1 loaders (spawned under `config.both`) produced.  Both
contradict the claimed gating, because the second upload push at
test.rs line 396 tests `config.upload` instead of `config.both`. -/
theorem c2_both_upload_group_wrongly_gated :
    (test_async_stream_groups
        { download := false, upload := true, both := false, port := 0, load_duration := 0,
          grace_duration := 0, streams := 1, stream_stagger := 0, ping_interval := 0,
          bandwidth_interval := 0 } [] [] [] 1).map (fun g => (g.download, g.both))
      = [(false, false), (false, true)]
    ∧ (test_async_stream_groups
        { download := false, upload := false, both := true, port := 0, load_duration := 0,
          grace_duration := 0, streams := 1, stream_stagger := 0, ping_interval := 0,
          bandwidth_interval := 0 } [] [[(5, 10)]] [(⟨1, 0⟩, 7, 9)] 1).map
          (fun g => (g.download, g.both))
      = [(true, true)] := by
  refine ⟨by decide, by decide⟩

/-- C5 counterexample: a malformed datagram (too short for the 20-byte
`Ping` encoding) makes both UDP receive loops abort (the model of the
deserialize-and-unwrap panic) instead of being dropped. -/
theorem c5_counterexample :
    ping_recv_process [([], 5)] [] = .error ()
    ∧ ping_measure_recv_process [([42], 6)] [] = .error ()
    ∧ deserialize_ping [] = none := by
  refine ⟨rfl, rfl, rfl⟩

/-- C5 (amended): the UDP receive loops do not tolerate malformed
datagrams: each receiver unwraps deserialization, so it aborts exactly
when some datagram fails to deserialize as a `Ping`; only when every
datagram is well-formed does the loop keep receiving and storing. -/
theorem c5_malformed_datagram_aborts :
    ∀ (dgs : List (List Nat × Nat)) (storage : List (Ping × Nat)),
      (ping_recv_process dgs storage = .error () ↔ ∃ d ∈ dgs, deserialize_ping d.1 = none)
      ∧ (ping_measure_recv_process dgs storage = .error ()
          ↔ ∃ d ∈ dgs, deserialize_ping d.1 = none) := by
  have main : ∀ (dgs : List (List Nat × Nat)) (storage : List (Ping × Nat)),
      ping_recv_process dgs storage = .error () ↔ ∃ d ∈ dgs, deserialize_ping d.1 = none := by
    intro dgs
    induction dgs with
    | nil => intro storage; simp [ping_recv_process]
    | cons d rest ih =>
      intro storage
      rw [ping_recv_process]
      rcases hd : deserialize_ping d.1 with _ | ping
      · simp only []
        constructor
        · intro _; exact ⟨d, List.mem_cons_self d rest, hd⟩
        · intro _; trivial
      · simp only []
        rw [ih]
        constructor
        · rintro ⟨e, he, hee⟩
          exact ⟨e, List.mem_cons_of_mem d he, hee⟩
        · rintro ⟨e, he, hee⟩
          rcases List.mem_cons.mp he with rfl | he2
          · rw [hd] at hee; exact absurd hee (by simp)
          · exact ⟨e, he2, hee⟩
  intro dgs storage
  exact ⟨main dgs storage, main dgs storage⟩

/-- C6 counterexample: a run whose control channel delivers a `Measure`
sample stamped 9 s into the test under a configuration (one phase of
1 s load, 1 s grace) whose claimed deadline is 8 s; the bandwidth loop
completes normally, keeps the late counter, and produces no timeout
error — there is no test-wide deadline in the code. -/
theorem c6_counterexample :
    bandwidth_loop [ServerMsg.measure ⟨0, 0⟩ 9000000 1, ServerMsg.measurementsDone] []
      = .finished [(⟨0, 0⟩, 9000000, 1)]
    ∧ spec_claimed_deadline
        { download := true, upload := false, both := false, port := 0,
          load_duration := 1000000000, grace_duration := 1000000000, streams := 1,
          stream_stagger := 0, ping_interval := 0, bandwidth_interval := 0 }
      < from_micros 9000000 := by
  refine ⟨by decide, by decide⟩

/-- C6 (amended): the control-channel receive loop enforces no
deadline: whenever it completes, it returns every `Measure` sample read
before `MeasurementsDone`, whatever timestamps they carry — counters
are never discarded for exceeding `load_duration × enabled_phases +
2 × grace + 5 s`, and no timeout outcome exists. -/
theorem c6_no_deadline_in_bandwidth_loop :
    ∀ (msgs : List ServerMsg) (acc r : List (TestStream × Nat × Nat)),
      bandwidth_loop msgs acc = .finished r → r = acc ++ measures_before_done msgs := by
  intro msgs
  induction msgs with
  | nil => intro acc r h; simp [bandwidth_loop] at h
  | cons m rest ih =>
    intro acc r h
    cases m with
    | measure s t b =>
      rw [bandwidth_loop] at h
      rw [ih _ _ h, measures_before_done]
      simp
    | measureStreamDone s =>
      rw [bandwidth_loop] at h
      rw [ih _ _ h, measures_before_done]
    | measurementsDone =>
      rw [bandwidth_loop] at h
      cases h
      rw [measures_before_done]
      simp
    | other =>
      rw [bandwidth_loop] at h
      exact absurd h (by simp)

/-- C6 witness: the retention property at a concrete message list. -/
theorem c6_witness :
    ([((⟨0, 0⟩ : TestStream), 5, 6)] : List (TestStream × Nat × Nat))
      = [] ++ measures_before_done
          [ServerMsg.measure ⟨0, 0⟩ 5 6, ServerMsg.measurementsDone] :=
  c6_no_deadline_in_bandwidth_loop
    [ServerMsg.measure ⟨0, 0⟩ 5 6, ServerMsg.measurementsDone] [] [(⟨0, 0⟩, 5, 6)] rfl

theorem ping_send_run_fst (ticks : List (TestState × Nat)) :
    ∀ storage : List (Nat × Nat),
      (ping_send_run ticks storage).map Prod.fst
        = storage.map Prod.fst
            ++ List.range' storage.length ((ticks.takeWhile below_end).length) := by
  induction ticks with
  | nil => intro s; simp [ping_send_run]
  | cons pt rest ih =>
    intro s
    rw [ping_send_run]
    by_cases h : TestState.End.toNat ≤ pt.1.toNat
    · rw [if_pos h]
      have hp : below_end pt = false := by
        simp only [below_end, decide_eq_false_iff_not]
        omega
      rw [List.takeWhile_cons, hp]
      simp
    · rw [if_neg h]
      rw [ih]
      have hp : below_end pt = true := by
        simp only [below_end, decide_eq_true_eq]
        omega
      rw [List.takeWhile_cons, hp]
      simp only [List.length_cons, List.map_append, List.length_append, List.map_cons,
        List.map_nil, List.length_map, List.range'_succ, List.length_nil]
      rw [List.append_assoc]
      rfl

theorem takeWhile_eq_filter_of_monotone {α : Type} (p : α → Bool) :
    ∀ l : List α, List.Pairwise (fun a b => p a = false → p b = false) l →
      l.takeWhile p = l.filter p := by
  intro l
  induction l with
  | nil => intro _; rfl
  | cons x xs ih =>
    intro hp
    rcases List.pairwise_cons.mp hp with ⟨hx, hxs⟩
    rcases h : p x with _ | _
    · rw [List.takeWhile_cons, h, List.filter_cons, h]
      have hnil : xs.filter p = [] := by
        rw [List.filter_eq_nil_iff]
        intro a ha
        rw [hx a ha h]
        simp
      rw [hnil]
      simp
    · rw [List.takeWhile_cons, h, List.filter_cons, h]
      simp [ih hxs]

/-- C9: the ping sender sends exactly on the leading ticks whose
observed state is strictly below `End`, and the indices it assigns are
exactly 0, 1, 2, … (dense and strictly increasing): the index list of a
run is `List.range` of the number of such ticks.  Moreover, since the
watch channel never regresses below `End` once it reaches it (second
part, under that monotonicity assumption), a send happens on a tick if
and only if the state observed on that tick is strictly below `End`. -/
theorem c9_ping_send_dense_indices :
    ∀ ticks : List (TestState × Nat),
      ((ping_send_run ticks []).map Prod.fst
        = List.range ((ticks.takeWhile below_end).length))
      ∧ (List.Pairwise (fun a b => below_end a = false → below_end b = false) ticks →
          ticks.takeWhile below_end = ticks.filter below_end) := by
  intro ticks
  constructor
  · rw [ping_send_run_fst ticks []]
    simp [List.range_eq_range']
  · exact takeWhile_eq_filter_of_monotone below_end ticks

/-- C9 witness: a run of three ticks whose third observed state is
`End`; two pings with indices 0 and 1 are sent, exactly on the ticks
below `End`. -/
theorem c9_witness :
    ((ping_send_run [(.Setup, 3), (.Grace1, 7), (.End, 9)] []).map Prod.fst
      = List.range ((([(.Setup, 3), (.Grace1, 7), (.End, 9)] :
          List (TestState × Nat)).takeWhile below_end).length))
    ∧ ([(.Setup, 3), (.Grace1, 7), (.End, 9)] :
          List (TestState × Nat)).takeWhile below_end
      = ([(.Setup, 3), (.Grace1, 7), (.End, 9)] :
          List (TestState × Nat)).filter below_end :=
  ⟨(c9_ping_send_dense_indices [(.Setup, 3), (.Grace1, 7), (.End, 9)]).1,
   (c9_ping_send_dense_indices [(.Setup, 3), (.Grace1, 7), (.End, 9)]).2 (by decide)⟩

/-- C10: the `config.streams` conversion at the start of `test_async`
is an unchecked `u64 → u32` `try_into().unwrap()`: it panics (models as
`none`) exactly when `streams` exceeds `u32::MAX`, and under the
precondition `streams ≤ u32::MAX` it always succeeds with the same
value, making the error branch unreachable. -/
theorem c10_streams_conversion_panics_above_u32 :
    ∀ streams : Nat,
      (test_async_loading_streams streams = none ↔ 4294967296 ≤ streams)
      ∧ (streams < 4294967296 → test_async_loading_streams streams = some streams) := by
  intro s
  constructor
  · by_cases h : s < 4294967296
    · simp [test_async_loading_streams, h]
    · simp [test_async_loading_streams, h]
      omega
  · intro h
    simp [test_async_loading_streams, h]

/-- C10 witness: the conversion succeeds at 4 streams and panics at
2^32 streams. -/
theorem c10_witness :
    test_async_loading_streams 4 = some 4 ∧ test_async_loading_streams 4294967296 = none :=
  ⟨(c10_streams_conversion_panics_above_u32 4).2 (by omega),
   (c10_streams_conversion_panics_above_u32 4294967296).1.mpr (by omega)⟩

end Crusader
